import Mathlib

/-!
Shallow embedding of kwf2030/bolt (src/bolt.go), a convenience wrapper over
an embedded ordered key-value store (bbolt).  The engine itself is an
external collaborator of the wrapper; its contract (ordered buckets,
view/update transactions that commit on success and roll back on error,
cursors with seek and forward iteration, a maintained key-count statistic)
is modelled from the specification's description of the engine interface.
The wrapper functions are translated statement by statement from
src/bolt.go.
-/

namespace Bolt

/-- Byte sequences (Go `[]byte`) as lists of naturals. -/
abbrev Bytes := List Nat

/-- Errors the wrapper signals.  `engine n` stands for an arbitrary error
value produced by a callback or the engine and surfaced verbatim. -/
inductive Err where
  | invalidArgument
  | bucketNotFound
  | keyNotFound
  | engine (code : Nat)
deriving Repr, DecidableEq

/-- A bucket: association list from key to value, kept in strictly
increasing lexicographic key order by the engine. -/
abbrev Bucket := List (Bytes × Bytes)

/-- A database: association list from bucket name to bucket. -/
abbrev DB := List (Bytes × Bucket)

/-- Modelled from the spec: "ordering = lexicographic byte order". -/
def ltBytes : Bytes → Bytes → Bool
  | [], [] => false
  | [], _ :: _ => true
  | _ :: _, [] => false
  | a :: as, b :: bs => a < b || (a == b && ltBytes as bs)

/-- Modelled from the spec: `getBucket(txn, name) -> bucketRef|notFound`. -/
def txBucket (d : DB) (name : Bytes) : Option Bucket :=
  match d with
  | [] => none
  | (n, b) :: rest => if n = name then some b else txBucket rest name

/-- Modelled from the spec: bucket-level `get` (point lookup). -/
def bucketGet (b : Bucket) (key : Bytes) : Option Bytes :=
  match b with
  | [] => none
  | (k, v) :: rest => if k = key then some v else bucketGet rest key

/-- Modelled from the spec: bucket-level `put` (insert-or-replace keeping
lexicographic key order). -/
def bucketPut : Bucket → Bytes → Bytes → Bucket
  | [], key, val => [(key, val)]
  | (k, v) :: rest, key, val =>
    if ltBytes key k then (key, val) :: (k, v) :: rest
    else if key = k then (key, val) :: rest
    else (k, v) :: bucketPut rest key val

/-- Commit of a write transaction's bucket mutations: the bucket's new
contents replace the old ones in the database. -/
def dbSetBucket : DB → Bytes → Bucket → DB
  | [], _, _ => []
  | (n, ob) :: rest, name, b =>
    if n = name then (name, b) :: rest else (n, ob) :: dbSetBucket rest name b

/-- Modelled from the spec: `createBucketIfAbsent(txn, name)`. -/
def createBucketIfNotExists (d : DB) (name : Bytes) : DB :=
  match txBucket d name with
  | some _ => d
  | none => d ++ [(name, [])]

/-- Modelled from the spec: a cursor's `Seek(pfx)` positions at the first
key that is not below `pfx` (the bucket being sorted). -/
def seek (b : Bucket) (pfx : Bytes) : Bucket :=
  b.dropWhile (fun kv => ltBytes kv.1 pfx)

/-- Modelled from the spec: the engine's maintained cardinality statistic
(`Stats().KeyN`), the number of entries of the bucket. -/
def bucketKeyN (b : Bucket) : Nat := b.length

/-- The copy `ret := make(...); copy(ret, val)` in Get (src/bolt.go 58-59). -/
def copyBytes (v : Bytes) : Bytes := v.map id

/-- A file system mapping a path to the database persisted there.
Modelled from the spec: `openOrCreate(path) -> handle`. -/
abbrev FS := List (String × DB)

def fsGet (fs : FS) (path : String) : Option DB :=
  match fs with
  | [] => none
  | (p, d) :: rest => if p = path then some d else fsGet rest path

def fsSet : FS → String → DB → FS
  | [], path, d => [(path, d)]
  | (p, od) :: rest, path, d =>
    if p = path then (path, d) :: rest else (p, od) :: fsSet rest path d

/-- The bucket-creation loop of Open (src/bolt.go 27-34): each name of
non-zero length is created if missing; others are skipped. -/
def initBuckets (buckets : List Bytes) (d0 : DB) : DB :=
  buckets.foldl
    (fun acc bk => if bk.length == 0 then acc else createBucketIfNotExists acc bk) d0

/-- Open (src/bolt.go 17-42): an empty path is an invalid argument;
otherwise the store at `path` is opened (created empty when absent) and
each non-empty name in `buckets` is created if missing, in one write
transaction. -/
def Open (fs : FS) (path : String) (buckets : List Bytes) :
    Except Err DB × FS :=
  if path = "" then (.error .invalidArgument, fs)
  else
    let d := initBuckets buckets ((fsGet fs path).getD [])
    (.ok d, fsSet fs path d)

/-- Get (src/bolt.go 44-66): nil-returning convenience lookup; any
validation failure or transaction error yields `none`, otherwise a copy of
the stored value. -/
def Get (db : Option DB) (bucket key : Bytes) : Option Bytes :=
  match db with
  | none => none
  | some d =>
    if bucket.length == 0 || key.length == 0 then none
    else
      match txBucket d bucket with
      | none => none
      | some b =>
        match bucketGet b key with
        | none => none
        | some v => some (copyBytes v)

/-- Put (src/bolt.go 68-79). -/
def Put (db : Option DB) (bucket key value : Bytes) :
    Except Err Unit × Option DB :=
  match db with
  | none => (.error .invalidArgument, none)
  | some d =>
    if bucket.length == 0 || key.length == 0 || value.length == 0 then
      (.error .invalidArgument, some d)
    else
      match txBucket d bucket with
      | none => (.error .bucketNotFound, some d)
      | some b => (.ok (), some (dbSetBucket d bucket (bucketPut b key value)))

/-- GetWithValue (src/bolt.go 81-96). -/
def GetWithValue (db : Option DB) (bucket key : Bytes)
    (fn : Option (Bytes → Except Err Unit)) : Except Err Unit :=
  match db, fn with
  | some d, some f =>
    if bucket.length == 0 || key.length == 0 then .error .invalidArgument
    else
      match txBucket d bucket with
      | none => .error .bucketNotFound
      | some b =>
        match bucketGet b key with
        | none => .error .keyNotFound
        | some v => f v
  | _, _ => .error .invalidArgument

/-- PutWithValue (src/bolt.go 98-120): read-modify-write of one key; the
callback's `nil` result (here `none`) makes the write a no-op; the update
transaction rolls back when the callback errors. -/
def PutWithValue (db : Option DB) (bucket key : Bytes)
    (fn : Option (Bytes → Except Err (Option Bytes))) :
    Except Err Unit × Option DB :=
  match db, fn with
  | some d, some f =>
    if bucket.length == 0 || key.length == 0 then
      (.error .invalidArgument, some d)
    else
      match txBucket d bucket with
      | none => (.error .bucketNotFound, some d)
      | some b =>
        match bucketGet b key with
        | none => (.error .keyNotFound, some d)
        | some v =>
          match f v with
          | .error e => (.error e, some d)
          | .ok none => (.ok (), some d)
          | .ok (some newVal) =>
            (.ok (), some (dbSetBucket d bucket (bucketPut b key newVal)))
  | _, _ => (.error .invalidArgument, db)

/-- The cursor loop of PutWithValuePrefix (src/bolt.go 132-146): walk the
entries from `Seek(pfx)` on, stop at the first key without the prefix,
write each non-nil replacement back through the bucket. -/
def putPrefixLoop (f : Bytes → Except Err (Option Bytes)) (pfx : Bytes) :
    Bucket → List (Bytes × Bytes) → Except Err Bucket
  | b, [] => .ok b
  | b, (k, v) :: rest =>
    if pfx.isPrefixOf k then
      match f v with
      | .error e => .error e
      | .ok none => putPrefixLoop f pfx b rest
      | .ok (some w) => putPrefixLoop f pfx (bucketPut b k w) rest
    else .ok b

/-- PutWithValuePrefix (src/bolt.go 122-149): read-modify-write of every
key with the given prefix in one update transaction; a callback error
aborts and rolls the whole transaction back. -/
def PutWithValuePrefix (db : Option DB) (bucket pfx : Bytes)
    (fn : Option (Bytes → Except Err (Option Bytes))) :
    Except Err Unit × Option DB :=
  match db, fn with
  | some d, some f =>
    if bucket.length == 0 || pfx.length == 0 then
      (.error .invalidArgument, some d)
    else
      match txBucket d bucket with
      | none => (.error .bucketNotFound, some d)
      | some b =>
        match putPrefixLoop f pfx b (seek b pfx) with
        | .error e => (.error e, some d)
        | .ok b2 => (.ok (), some (dbSetBucket d bucket b2))
  | _, _ => (.error .invalidArgument, db)

/-- The cursor loop of EachKV (src/bolt.go 201-205).  The Go callback is a
closure; its side effects are modelled by threading a state `s`. -/
def eachLoop {σ : Type} (f : σ → Bytes → Bytes → Except Err σ) :
    σ → List (Bytes × Bytes) → Except Err σ
  | s, [] => .ok s
  | s, (k, v) :: rest =>
    match f s k v with
    | .error e => .error e
    | .ok s2 => eachLoop f s2 rest

/-- The cursor loop of EachKVPrefix (src/bolt.go 220-227). -/
def eachPrefixLoop {σ : Type} (f : σ → Bytes → Bytes → Except Err σ)
    (pfx : Bytes) : σ → List (Bytes × Bytes) → Except Err σ
  | s, [] => .ok s
  | s, (k, v) :: rest =>
    if pfx.isPrefixOf k then
      match f s k v with
      | .error e => .error e
      | .ok s2 => eachPrefixLoop f pfx s2 rest
    else .ok s

/-- EachKV (src/bolt.go 191-208). -/
def EachKV {σ : Type} (db : Option DB) (bucket : Bytes)
    (fn : Option (σ → Bytes → Bytes → Except Err σ)) (s : σ) : Except Err σ :=
  match db, fn with
  | some d, some f =>
    if bucket.length == 0 then .error .invalidArgument
    else
      match txBucket d bucket with
      | none => .error .bucketNotFound
      | some b => eachLoop f s b
  | _, _ => .error .invalidArgument

/-- EachKVPrefix (src/bolt.go 210-230). -/
def EachKVPrefix {σ : Type} (db : Option DB) (bucket pfx : Bytes)
    (fn : Option (σ → Bytes → Bytes → Except Err σ)) (s : σ) : Except Err σ :=
  match db, fn with
  | some d, some f =>
    if bucket.length == 0 || pfx.length == 0 then .error .invalidArgument
    else
      match txBucket d bucket with
      | none => .error .bucketNotFound
      | some b => eachPrefixLoop f pfx s (seek b pfx)
  | _, _ => .error .invalidArgument

/-- CountKV (src/bolt.go 245-262): reads the engine's key-count
statistic. -/
def CountKV (db : Option DB) (bucket : Bytes) : Except Err Nat :=
  match db with
  | none => .error .invalidArgument
  | some d =>
    if bucket.length == 0 then .error .invalidArgument
    else
      match txBucket d bucket with
      | none => .error .bucketNotFound
      | some b => .ok (bucketKeyN b)

/-- The cursor loop of CountKVPrefix (src/bolt.go 275-280). -/
def countPrefixLoop (pfx : Bytes) : List (Bytes × Bytes) → Nat
  | [] => 0
  | (k, _) :: rest =>
    if pfx.isPrefixOf k then countPrefixLoop pfx rest + 1 else 0

/-- CountKVPrefix (src/bolt.go 264-287). -/
def CountKVPrefix (db : Option DB) (bucket pfx : Bytes) : Except Err Nat :=
  match db with
  | none => .error .invalidArgument
  | some d =>
    if bucket.length == 0 || pfx.length == 0 then .error .invalidArgument
    else
      match txBucket d bucket with
      | none => .error .bucketNotFound
      | some b => .ok (countPrefixLoop pfx (seek b pfx))

/-- GetWithBucket (src/bolt.go 151-162): runs the callback on the bucket in
a read-only transaction. -/
def GetWithBucket (db : Option DB) (bucket : Bytes)
    (fn : Option (Bucket → Except Err Unit)) : Except Err Unit :=
  match db, fn with
  | some d, some f =>
    if bucket.length == 0 then .error .invalidArgument
    else
      match txBucket d bucket with
      | none => .error .bucketNotFound
      | some b => f b
  | _, _ => .error .invalidArgument

/-- PutWithBucket (src/bolt.go 164-175): the callback mutates the bucket in
a write transaction; commit on success, rollback on error. -/
def PutWithBucket (db : Option DB) (bucket : Bytes)
    (fn : Option (Bucket → Except Err Bucket)) : Except Err Unit × Option DB :=
  match db, fn with
  | some d, some f =>
    if bucket.length == 0 then (.error .invalidArgument, some d)
    else
      match txBucket d bucket with
      | none => (.error .bucketNotFound, some d)
      | some b =>
        match f b with
        | .error e => (.error e, some d)
        | .ok b2 => (.ok (), some (dbSetBucket d bucket b2))
  | _, _ => (.error .invalidArgument, db)

/-- GetWithDB (src/bolt.go 177-182): runs the callback against a read-only
transaction over the whole store. -/
def GetWithDB (db : Option DB) (fn : Option (DB → Except Err Unit)) :
    Except Err Unit :=
  match db, fn with
  | some d, some f => f d
  | _, _ => .error .invalidArgument

/-- PutWithDB (src/bolt.go 184-189): the callback mutates the store in a
write transaction; commit on success, rollback on error. -/
def PutWithDB (db : Option DB) (fn : Option (DB → Except Err DB)) :
    Except Err Unit × Option DB :=
  match db, fn with
  | some d, some f =>
    match f d with
    | .error e => (.error e, some d)
    | .ok d2 => (.ok (), some d2)
  | _, _ => (.error .invalidArgument, db)

/-- EachBucket (src/bolt.go 232-243): like GetWithBucket, the callback
receives the named bucket in a read-only transaction. -/
def EachBucket (db : Option DB) (bucket : Bytes)
    (fn : Option (Bucket → Except Err Unit)) : Except Err Unit :=
  match db, fn with
  | some d, some f =>
    if bucket.length == 0 then .error .invalidArgument
    else
      match txBucket d bucket with
      | none => .error .bucketNotFound
      | some b => f b
  | _, _ => .error .invalidArgument

/-- The engine's bucket invariant: entries are strictly increasing in
lexicographic key order. -/
def bucketSorted (b : Bucket) : Prop :=
  List.Pairwise (fun x y => ltBytes x.1 y.1 = true) b

instance (b : Bucket) : Decidable (bucketSorted b) := by
  unfold bucketSorted; infer_instance

/-- The keys of a bucket that carry the prefix, with their values, in
bucket order. -/
def matching (b : Bucket) (pfx : Bytes) : List (Bytes × Bytes) :=
  b.filter (fun kv => pfx.isPrefixOf kv.1)

/-! ### Order lemmas for the lexicographic byte order -/

theorem ltBytes_nil_right (a : Bytes) : ltBytes a [] = false := by
  cases a <;> simp [ltBytes]

theorem ltBytes_cons_iff {a b : Nat} {as bs : Bytes} :
    ltBytes (a :: as) (b :: bs) = true ↔
      a < b ∨ (a = b ∧ ltBytes as bs = true) := by
  simp [ltBytes]

theorem ltBytes_irrefl (a : Bytes) : ltBytes a a = false := by
  induction a with
  | nil => rfl
  | cons x xs ih => simp [ltBytes, ih]

theorem ltBytes_ne {a b : Bytes} (h : ltBytes a b = true) : a ≠ b := by
  intro he; subst he; rw [ltBytes_irrefl] at h; cases h

theorem ltBytes_trans :
    ∀ (a b c : Bytes), ltBytes a b = true → ltBytes b c = true →
      ltBytes a c = true := by
  intro a
  induction a with
  | nil =>
    intro b c hab hbc
    cases b with
    | nil => simp [ltBytes] at hab
    | cons y ys =>
      cases c with
      | nil => rw [ltBytes_nil_right] at hbc; cases hbc
      | cons z zs => simp [ltBytes]
  | cons x xs ih =>
    intro b c hab hbc
    cases b with
    | nil => rw [ltBytes_nil_right] at hab; cases hab
    | cons y ys =>
      cases c with
      | nil => rw [ltBytes_nil_right] at hbc; cases hbc
      | cons z zs =>
        rw [ltBytes_cons_iff] at hab hbc ⊢
        rcases hab with h1 | ⟨rfl, h1⟩
        · rcases hbc with h2 | ⟨rfl, h2⟩
          · exact Or.inl (Nat.lt_trans h1 h2)
          · exact Or.inl h1
        · rcases hbc with h2 | ⟨rfl, h2⟩
          · exact Or.inl h2
          · exact Or.inr ⟨rfl, ih ys zs h1 h2⟩

theorem ltBytes_false_trans {pfx k1 k2 : Bytes} (h1 : ltBytes k1 pfx = false)
    (h2 : ltBytes k1 k2 = true) : ltBytes k2 pfx = false := by
  by_contra h
  have h3 : ltBytes k2 pfx = true := by
    revert h; cases ltBytes k2 pfx <;> simp
  rw [ltBytes_trans k1 k2 pfx h2 h3] at h1
  cases h1

theorem isPrefixOf_not_lt {pfx k : Bytes} (h : pfx.isPrefixOf k = true) :
    ltBytes k pfx = false := by
  induction pfx generalizing k with
  | nil => cases k <;> simp [ltBytes]
  | cons p ps ih =>
    cases k with
    | nil => simp [List.isPrefixOf] at h
    | cons a as =>
      simp only [List.isPrefixOf, Bool.and_eq_true, beq_iff_eq] at h
      obtain ⟨rfl, h2⟩ := h
      simp [ltBytes, ih h2]

/-- Contiguity: past a key that is at or above the prefix but does not
carry it, no later key carries the prefix either. -/
theorem isPrefixOf_false_of_gt {pfx k1 k2 : Bytes}
    (h0 : ltBytes k1 pfx = false) (h1 : pfx.isPrefixOf k1 = false)
    (h2 : ltBytes k1 k2 = true) : pfx.isPrefixOf k2 = false := by
  induction pfx generalizing k1 k2 with
  | nil => simp [List.isPrefixOf] at h1
  | cons p ps ih =>
    cases k1 with
    | nil => simp [ltBytes] at h0
    | cons a as =>
      cases k2 with
      | nil => rw [ltBytes_nil_right] at h2; cases h2
      | cons c cs =>
        simp only [List.isPrefixOf, Bool.and_eq_false_iff, beq_eq_false_iff_ne,
          ne_eq] at h1 ⊢
        simp only [ltBytes, Bool.or_eq_false_iff, Bool.and_eq_false_iff,
          decide_eq_false_iff_not, beq_eq_false_iff_ne, ne_eq] at h0
        rw [ltBytes_cons_iff] at h2
        obtain ⟨hap, hor⟩ := h0
        rcases h2 with hac | ⟨rfl, hac⟩
        · -- a < c: if p = c then a < p, contradicting ¬a < p
          left; intro he; omega
        · -- a = c (same head), recurse on the tails
          rcases hor with hne | hlt
          · left; intro he; exact hne he.symm
          · rcases h1 with hne | hps
            · left; exact hne
            · right; exact ih hlt hps hac

/-! ### Engine-model lemmas -/

theorem txBucket_dbSetBucket_same {d : DB} {name : Bytes} {b0 : Bucket}
    (h : txBucket d name = some b0) (nb : Bucket) :
    txBucket (dbSetBucket d name nb) name = some nb := by
  induction d with
  | nil => simp [txBucket] at h
  | cons hd rest ih =>
    obtain ⟨n, ob⟩ := hd
    by_cases hn : n = name
    · subst hn
      simp [dbSetBucket, txBucket]
    · simp only [txBucket, if_neg hn] at h
      simp [dbSetBucket, txBucket, hn, ih h]

theorem bucketGet_bucketPut_same (b : Bucket) (key val : Bytes) :
    bucketGet (bucketPut b key val) key = some val := by
  induction b with
  | nil => simp [bucketPut, bucketGet]
  | cons hd rest ih =>
    obtain ⟨k, v⟩ := hd
    by_cases hlt : ltBytes key k = true
    · simp [bucketPut, hlt, bucketGet]
    · by_cases heq : key = k
      · subst heq
        simp [bucketPut, hlt, bucketGet]
      · have hne : k ≠ key := fun he => heq he.symm
        simp [bucketPut, hlt, heq, bucketGet, hne, ih]

theorem copyBytes_eq (v : Bytes) : copyBytes v = v := by
  simp [copyBytes]

theorem length_beq_zero {l : List Nat} (h : l ≠ []) :
    (l.length == 0) = false := by
  cases l with
  | nil => exact absurd rfl h
  | cons a as => rfl

/-! ### Cursor-scan lemmas: seek plus the stop-at-first-mismatch loop visits
exactly the keys carrying the prefix -/

theorem seek_sorted_facts {pfx : Bytes} :
    ∀ b : Bucket, bucketSorted b →
      bucketSorted (seek b pfx) ∧
      (∀ x ∈ seek b pfx, ltBytes x.1 pfx = false) ∧
      matching b pfx = matching (seek b pfx) pfx := by
  intro b
  induction b with
  | nil => intro _; exact ⟨List.Pairwise.nil, by simp [seek], rfl⟩
  | cons hd rest ih =>
    intro hs
    rw [bucketSorted, List.pairwise_cons] at hs
    obtain ⟨hhd, hrest⟩ := hs
    by_cases hlt : ltBytes hd.1 pfx = true
    · have hseek : seek (hd :: rest) pfx = seek rest pfx := by
        simp [seek, List.dropWhile_cons, hlt]
      have hnp : pfx.isPrefixOf hd.1 = false := by
        by_contra h
        have h2 : pfx.isPrefixOf hd.1 = true := by
          revert h; cases pfx.isPrefixOf hd.1 <;> simp
        rw [isPrefixOf_not_lt h2] at hlt; cases hlt
      have hmatch : matching (hd :: rest) pfx = matching rest pfx := by
        simp [matching, List.filter_cons, hnp]
      obtain ⟨i1, i2, i3⟩ := ih hrest
      exact ⟨by rwa [hseek], by rw [hseek]; exact i2, by rw [hseek, hmatch]; exact i3⟩
    · have hltf : ltBytes hd.1 pfx = false := by
        revert hlt; cases ltBytes hd.1 pfx <;> simp
      have hseek : seek (hd :: rest) pfx = hd :: rest := by
        simp [seek, List.dropWhile_cons, hltf]
      refine ⟨by rw [hseek]; exact List.pairwise_cons.mpr ⟨hhd, hrest⟩, ?_, by rw [hseek]⟩
      rw [hseek]
      intro x hx
      rcases List.mem_cons.mp hx with rfl | hx
      · exact hltf
      · exact ltBytes_false_trans hltf (hhd x hx)

theorem eachPrefixLoop_eq_of_ge {σ : Type} (f : σ → Bytes → Bytes → Except Err σ)
    (pfx : Bytes) :
    ∀ (l : List (Bytes × Bytes)) (s : σ),
      List.Pairwise (fun x y => ltBytes x.1 y.1 = true) l →
      (∀ x ∈ l, ltBytes x.1 pfx = false) →
      eachPrefixLoop f pfx s l = eachLoop f s (matching l pfx) := by
  intro l
  induction l with
  | nil => intro s _ _; rfl
  | cons hd rest ih =>
    intro s hp hge
    rw [List.pairwise_cons] at hp
    obtain ⟨hhd, hrest⟩ := hp
    obtain ⟨k, v⟩ := hd
    by_cases hpre : pfx.isPrefixOf k = true
    · have hm : matching ((k, v) :: rest) pfx = (k, v) :: matching rest pfx := by
        simp [matching, List.filter_cons, hpre]
      rw [hm]
      simp only [eachPrefixLoop, hpre, if_true, eachLoop]
      cases hf : f s k v with
      | error e => rfl
      | ok s2 =>
        exact ih s2 hrest (fun x hx => hge x (List.mem_cons_of_mem _ hx))
    · have hpf : pfx.isPrefixOf k = false := by
        revert hpre; cases pfx.isPrefixOf k <;> simp
      have hm : matching ((k, v) :: rest) pfx = [] := by
        simp only [matching, List.filter_eq_nil_iff]
        intro x hx
        rcases List.mem_cons.mp hx with rfl | hx
        · simp [hpf]
        · simp [isPrefixOf_false_of_gt (hge (k, v) (List.mem_cons_self _ _)) hpf
            (hhd x hx)]
      rw [hm]
      simp [eachPrefixLoop, hpf, eachLoop]

theorem countPrefixLoop_eq_of_ge (pfx : Bytes) :
    ∀ l : List (Bytes × Bytes),
      List.Pairwise (fun x y => ltBytes x.1 y.1 = true) l →
      (∀ x ∈ l, ltBytes x.1 pfx = false) →
      countPrefixLoop pfx l = (matching l pfx).length := by
  intro l
  induction l with
  | nil => intro _ _; rfl
  | cons hd rest ih =>
    intro hp hge
    rw [List.pairwise_cons] at hp
    obtain ⟨hhd, hrest⟩ := hp
    obtain ⟨k, v⟩ := hd
    by_cases hpre : pfx.isPrefixOf k = true
    · have hm : matching ((k, v) :: rest) pfx = (k, v) :: matching rest pfx := by
        simp [matching, List.filter_cons, hpre]
      rw [hm]
      simp only [countPrefixLoop, hpre, if_true, List.length_cons]
      rw [ih hrest (fun x hx => hge x (List.mem_cons_of_mem _ hx))]
    · have hpf : pfx.isPrefixOf k = false := by
        revert hpre; cases pfx.isPrefixOf k <;> simp
      have hm : matching ((k, v) :: rest) pfx = [] := by
        simp only [matching, List.filter_eq_nil_iff]
        intro x hx
        rcases List.mem_cons.mp hx with rfl | hx
        · simp [hpf]
        · simp [isPrefixOf_false_of_gt (hge (k, v) (List.mem_cons_self _ _)) hpf
            (hhd x hx)]
      rw [hm]
      simp [countPrefixLoop, hpf]

theorem putPrefixLoop_error_of_mem (f : Bytes → Except Err (Option Bytes))
    (pfx : Bytes) :
    ∀ (l : List (Bytes × Bytes)) (b0 : Bucket),
      List.Pairwise (fun x y => ltBytes x.1 y.1 = true) l →
      (∀ x ∈ l, ltBytes x.1 pfx = false) →
      (∃ kv ∈ matching l pfx, ∃ e, f kv.2 = .error e) →
      ∃ e, putPrefixLoop f pfx b0 l = .error e := by
  intro l
  induction l with
  | nil => intro b0 _ _ h; simp [matching] at h
  | cons hd rest ih =>
    intro b0 hp hge hex
    rw [List.pairwise_cons] at hp
    obtain ⟨hhd, hrest⟩ := hp
    obtain ⟨k, v⟩ := hd
    by_cases hpre : pfx.isPrefixOf k = true
    · cases hf : f v with
      | error e =>
        exact ⟨e, by simp [putPrefixLoop, hpre, hf]⟩
      | ok w =>
        have hm : matching ((k, v) :: rest) pfx = (k, v) :: matching rest pfx := by
          simp [matching, List.filter_cons, hpre]
        rw [hm] at hex
        obtain ⟨kv, hkv, e, he⟩ := hex
        rcases List.mem_cons.mp hkv with rfl | hkv
        · rw [hf] at he; cases he
        · have hex2 : ∃ kv ∈ matching rest pfx, ∃ e, f kv.2 = .error e :=
            ⟨kv, hkv, e, he⟩
          have hge2 : ∀ x ∈ rest, ltBytes x.1 pfx = false :=
            fun x hx => hge x (List.mem_cons_of_mem _ hx)
          cases w with
          | none =>
            obtain ⟨e2, he2⟩ := ih b0 hrest hge2 hex2
            exact ⟨e2, by simp [putPrefixLoop, hpre, hf, he2]⟩
          | some nv =>
            obtain ⟨e2, he2⟩ := ih (bucketPut b0 k nv) hrest hge2 hex2
            exact ⟨e2, by simp [putPrefixLoop, hpre, hf, he2]⟩
    · exfalso
      have hpf : pfx.isPrefixOf k = false := by
        revert hpre; cases pfx.isPrefixOf k <;> simp
      have hm : matching ((k, v) :: rest) pfx = [] := by
        simp only [matching, List.filter_eq_nil_iff]
        intro x hx
        rcases List.mem_cons.mp hx with rfl | hx
        · simp [hpf]
        · simp [isPrefixOf_false_of_gt (hge (k, v) (List.mem_cons_self _ _)) hpf
            (hhd x hx)]
      rw [hm] at hex
      simp at hex

/-! ### Bucket-creation lemmas for Open -/

theorem txBucket_append_of_none {d : DB} {n : Bytes} (h : txBucket d n = none)
    (b0 : Bucket) : txBucket (d ++ [(n, b0)]) n = some b0 := by
  induction d with
  | nil => simp [txBucket]
  | cons hd rest ih =>
    obtain ⟨m, ob⟩ := hd
    by_cases hm : m = n
    · subst hm; simp [txBucket] at h
    · simp only [txBucket, if_neg hm] at h
      simp [txBucket, hm, ih h]

theorem txBucket_append_left {d : DB} {m : Bytes} {b : Bucket}
    (h : txBucket d m = some b) (l : DB) : txBucket (d ++ l) m = some b := by
  induction d with
  | nil => simp [txBucket] at h
  | cons hd rest ih =>
    obtain ⟨n, ob⟩ := hd
    by_cases hn : n = m
    · subst hn; simp [txBucket] at h ⊢; exact h
    · simp only [txBucket, if_neg hn] at h
      simp [txBucket, hn, ih h]

theorem txBucket_create_self (d : DB) (n : Bytes) :
    (txBucket (createBucketIfNotExists d n) n).isSome = true := by
  unfold createBucketIfNotExists
  cases h : txBucket d n with
  | some b => simp [h]
  | none => simp [txBucket_append_of_none h []]

theorem txBucket_create_preserves {d : DB} {m : Bytes}
    (h : (txBucket d m).isSome = true) (n : Bytes) :
    (txBucket (createBucketIfNotExists d n) m).isSome = true := by
  unfold createBucketIfNotExists
  cases hn : txBucket d n with
  | some b => exact h
  | none =>
    cases hm : txBucket d m with
    | none => rw [hm] at h; cases h
    | some b => simp [txBucket_append_left hm]

theorem initBuckets_preserves (buckets : List Bytes) :
    ∀ (d : DB) (m : Bytes), (txBucket d m).isSome = true →
      (txBucket (initBuckets buckets d) m).isSome = true := by
  induction buckets with
  | nil => intro d m h; exact h
  | cons bk rest ih =>
    intro d m h
    rw [initBuckets, List.foldl_cons]
    by_cases hbk : (bk.length == 0) = true
    · rw [if_pos hbk]; exact ih d m h
    · rw [if_neg hbk]; exact ih _ m (txBucket_create_preserves h bk)

theorem initBuckets_creates (buckets : List Bytes) :
    ∀ (d : DB) (bk : Bytes), bk ∈ buckets → bk ≠ [] →
      (txBucket (initBuckets buckets d) bk).isSome = true := by
  induction buckets with
  | nil => intro d bk h; cases h
  | cons hd rest ih =>
    intro d bk hmem hne
    rw [initBuckets, List.foldl_cons]
    rcases List.mem_cons.mp hmem with rfl | hmem
    · rw [if_neg (by rw [length_beq_zero hne]; simp)]
      exact initBuckets_preserves rest _ bk (txBucket_create_self d bk)
    · by_cases hbk : (hd.length == 0) = true
      · rw [if_pos hbk]; exact ih d bk hmem hne
      · rw [if_neg hbk]; exact ih _ bk hmem hne

/-! ### The claims -/

/-- C1: for every database, existing bucket, and non-empty key and value,
Put(db, bucket, key, value) followed by Get(db, bucket, key) returns
exactly the bytes of value (round-trip). -/
theorem put_get_roundtrip (d : DB) (bucket key value : Bytes) (b : Bucket)
    (hb : txBucket d bucket = some b) (hbn : bucket ≠ []) (hk : key ≠ [])
    (hv : value ≠ []) :
    (Put (some d) bucket key value).1 = .ok () ∧
    Get (Put (some d) bucket key value).2 bucket key = some value := by
  have h1 := length_beq_zero hbn
  have h2 := length_beq_zero hk
  have h3 := length_beq_zero hv
  have hput : Put (some d) bucket key value =
      (.ok (), some (dbSetBucket d bucket (bucketPut b key value))) := by
    simp [Put, h1, h2, h3, hb]
  rw [hput]
  exact ⟨rfl, by
    simp [Get, h1, h2, txBucket_dbSetBucket_same hb, bucketGet_bucketPut_same,
      copyBytes_eq]⟩

theorem put_get_roundtrip_witness :
    (Put (some [([1], [])]) [1] [2] [3]).1 = .ok () ∧
    Get (Put (some [([1], [])]) [1] [2] [3]).2 [1] [2] = some [3] :=
  put_get_roundtrip [([1], [])] [1] [2] [3] [] (by decide) (by decide)
    (by decide) (by decide)

/-- C5: a get on a bucket that does not exist signals BucketNotFound; a get
on an existing bucket whose key is absent signals KeyNotFound. -/
theorem get_error_taxonomy (d : DB) (bucket key : Bytes)
    (f : Bytes → Except Err Unit) (hbn : bucket ≠ []) (hk : key ≠ []) :
    (txBucket d bucket = none →
      GetWithValue (some d) bucket key (some f) = .error .bucketNotFound) ∧
    (∀ b, txBucket d bucket = some b → bucketGet b key = none →
      GetWithValue (some d) bucket key (some f) = .error .keyNotFound) := by
  have h1 := length_beq_zero hbn
  have h2 := length_beq_zero hk
  constructor
  · intro hnb; simp [GetWithValue, h1, h2, hnb]
  · intro b hb hng; simp [GetWithValue, h1, h2, hb, hng]

theorem get_error_taxonomy_witness :
    GetWithValue (some ([] : DB)) [1] [2] (some fun _ => .ok ()) =
      .error .bucketNotFound ∧
    GetWithValue (some [([1], ([] : Bucket))]) [1] [2] (some fun _ => .ok ()) =
      .error .keyNotFound :=
  ⟨(get_error_taxonomy [] [1] [2] (fun _ => .ok ()) (by decide) (by decide)).1
      (by decide),
   (get_error_taxonomy [([1], [])] [1] [2] (fun _ => .ok ()) (by decide)
      (by decide)).2 [] (by decide) (by decide)⟩

/-- C6: Get never signals an error: nil database, empty bucket or key,
missing bucket, or absent key all yield none (the absent-value signal), and
a present key yields a copy of the stored value. -/
theorem get_never_errors (db : Option DB) (bucket key : Bytes) :
    (db = none → Get db bucket key = none) ∧
    (∀ d, db = some d → (bucket = [] ∨ key = []) → Get db bucket key = none) ∧
    (∀ d, db = some d → txBucket d bucket = none → Get db bucket key = none) ∧
    (∀ d b, db = some d → txBucket d bucket = some b →
      bucketGet b key = none → Get db bucket key = none) ∧
    (∀ d b v, db = some d → bucket ≠ [] → key ≠ [] →
      txBucket d bucket = some b → bucketGet b key = some v →
      Get db bucket key = some v) := by
  refine ⟨?_, ?_, ?_, ?_, ?_⟩
  · intro h; subst h; rfl
  · rintro d rfl h
    rcases h with rfl | rfl
    · simp [Get]
    · simp [Get]
  · rintro d rfl hnb
    by_cases hc : (bucket.length == 0 || key.length == 0) = true
    · simp [Get, hc]
    · simp only [Bool.not_eq_true] at hc
      simp [Get, hc, hnb]
  · rintro d b rfl hb hng
    by_cases hc : (bucket.length == 0 || key.length == 0) = true
    · simp [Get, hc]
    · simp only [Bool.not_eq_true] at hc
      simp [Get, hc, hb, hng]
  · rintro d b v rfl hbn hk hb hg
    simp [Get, length_beq_zero hbn, length_beq_zero hk, hb, hg, copyBytes_eq]

theorem get_never_errors_witness :
    Get none [1] [2] = none ∧
    Get (some [([1], [([2], [5])])]) [1] [2] = some [5] :=
  ⟨(get_never_errors none [1] [2]).1 rfl,
   (get_never_errors (some [([1], [([2], [5])])]) [1] [2]).2.2.2.2
      [([1], [([2], [5])])] [([2], [5])] [5] rfl (by decide) (by decide)
      (by decide) (by decide)⟩

/-- C2: PutWithValue reads the stored value and passes it to the callback;
a non-nil replacement is stored (a subsequent Get returns it); a nil
replacement makes no write, leaves the store unchanged and still succeeds;
an absent key fails with KeyNotFound leaving the store unchanged. -/
theorem putWithValue_rmw (d : DB) (bucket key : Bytes) (b : Bucket)
    (f : Bytes → Except Err (Option Bytes))
    (hb : txBucket d bucket = some b) (hbn : bucket ≠ []) (hk : key ≠ []) :
    (∀ v w, bucketGet b key = some v → f v = .ok (some w) →
      PutWithValue (some d) bucket key (some f) =
        (.ok (), some (dbSetBucket d bucket (bucketPut b key w))) ∧
      Get (PutWithValue (some d) bucket key (some f)).2 bucket key = some w) ∧
    (∀ v, bucketGet b key = some v → f v = .ok none →
      PutWithValue (some d) bucket key (some f) = (.ok (), some d)) ∧
    (bucketGet b key = none →
      PutWithValue (some d) bucket key (some f) =
        (.error .keyNotFound, some d)) := by
  have h1 := length_beq_zero hbn
  have h2 := length_beq_zero hk
  refine ⟨?_, ?_, ?_⟩
  · intro v w hv hf
    have hmain : PutWithValue (some d) bucket key (some f) =
        (.ok (), some (dbSetBucket d bucket (bucketPut b key w))) := by
      simp [PutWithValue, h1, h2, hb, hv, hf]
    refine ⟨hmain, ?_⟩
    rw [hmain]
    simp [Get, h1, h2, txBucket_dbSetBucket_same hb, bucketGet_bucketPut_same,
      copyBytes_eq]
  · intro v hv hf; simp [PutWithValue, h1, h2, hb, hv, hf]
  · intro hv; simp [PutWithValue, h1, h2, hb, hv]

theorem putWithValue_rmw_witness :
    (PutWithValue (some [([7], [([1], [5])])]) [7] [1]
        (some fun _ => .ok (some [9])) =
      (.ok (), some [([7], [([1], [9])])]) ∧
     Get (PutWithValue (some [([7], [([1], [5])])]) [7] [1]
        (some fun _ => .ok (some [9]))).2 [7] [1] = some [9]) ∧
    PutWithValue (some [([7], [([1], [5])])]) [7] [1]
        (some fun _ => .ok none) = (.ok (), some [([7], [([1], [5])])]) ∧
    PutWithValue (some [([7], [([1], [5])])]) [7] [2]
        (some fun _ => .ok (some [9])) =
      (.error .keyNotFound, some [([7], [([1], [5])])]) :=
  ⟨(putWithValue_rmw [([7], [([1], [5])])] [7] [1] [([1], [5])]
      (fun _ => .ok (some [9])) (by decide) (by decide) (by decide)).1
      [5] [9] (by decide) rfl,
   (putWithValue_rmw [([7], [([1], [5])])] [7] [1] [([1], [5])]
      (fun _ => .ok none) (by decide) (by decide) (by decide)).2.1
      [5] (by decide) rfl,
   (putWithValue_rmw [([7], [([1], [5])])] [7] [2] [([1], [5])]
      (fun _ => .ok (some [9])) (by decide) (by decide) (by decide)).2.2
      (by decide)⟩

/-- C3: a callback error during PutWithValuePrefix aborts the scan: the
error is returned and the database comes back in its pre-call state, every
write already made in the batch rolled back; and a callback error on any
matching key forces such an abort. -/
theorem putWithValuePrefix_atomic (d : DB) (bucket pfx : Bytes) (b : Bucket)
    (f : Bytes → Except Err (Option Bytes))
    (hb : txBucket d bucket = some b) (hs : bucketSorted b)
    (hbn : bucket ≠ []) (hp : pfx ≠ []) :
    (∀ e, putPrefixLoop f pfx b (seek b pfx) = .error e →
      PutWithValuePrefix (some d) bucket pfx (some f) = (.error e, some d)) ∧
    ((∃ kv ∈ matching b pfx, ∃ e, f kv.2 = .error e) →
      ∃ e, PutWithValuePrefix (some d) bucket pfx (some f) =
        (.error e, some d)) := by
  have h1 := length_beq_zero hbn
  have h2 := length_beq_zero hp
  constructor
  · intro e he; simp [PutWithValuePrefix, h1, h2, hb, he]
  · intro hex
    obtain ⟨s1, s2, s3⟩ := seek_sorted_facts b hs
    rw [s3] at hex
    obtain ⟨e, he⟩ := putPrefixLoop_error_of_mem f pfx (seek b pfx) b s1 s2 hex
    exact ⟨e, by simp [PutWithValuePrefix, h1, h2, hb, he]⟩

theorem putWithValuePrefix_atomic_witness :
    PutWithValuePrefix (some [([7], [([0], [5]), ([0, 1], [6])])]) [7] [0]
        (some fun v => if v = [5] then .ok (some [9]) else .error (.engine 3)) =
      (.error (.engine 3), some [([7], [([0], [5]), ([0, 1], [6])])]) :=
  (putWithValuePrefix_atomic [([7], [([0], [5]), ([0, 1], [6])])] [7] [0]
      [([0], [5]), ([0, 1], [6])]
      (fun v => if v = [5] then .ok (some [9]) else .error (.engine 3))
      (by decide) (by decide) (by decide) (by decide)).1
    (.engine 3) rfl

/-- C4: EachKVPrefix invokes the callback exactly on the keys carrying the
prefix, in ascending lexicographic order, and on no other key: the run
equals the plain fold of the callback over the matching entries of the
(sorted) bucket. -/
theorem eachKVPrefix_visits_matching {σ : Type} (d : DB) (bucket pfx : Bytes)
    (b : Bucket) (hb : txBucket d bucket = some b) (hs : bucketSorted b)
    (hbn : bucket ≠ []) (hp : pfx ≠ [])
    (f : σ → Bytes → Bytes → Except Err σ) (s : σ) :
    EachKVPrefix (some d) bucket pfx (some f) s =
      eachLoop f s (matching b pfx) := by
  have h1 := length_beq_zero hbn
  have h2 := length_beq_zero hp
  obtain ⟨s1, s2, s3⟩ := seek_sorted_facts b hs
  have heq := eachPrefixLoop_eq_of_ge f pfx (seek b pfx) s s1 s2
  simp [EachKVPrefix, h1, h2, hb, heq, ← s3]

theorem eachKVPrefix_visits_matching_witness :
    EachKVPrefix
        (some [([7], [([97], [0]), ([97, 98], [1]), ([97, 98, 99], [2]),
          ([97, 98, 100], [3]), ([98], [4])])])
        [7] [97, 98] (some fun s k _ => .ok (s ++ [k])) ([] : List Bytes) =
      .ok [[97, 98], [97, 98, 99], [97, 98, 100]] :=
  (eachKVPrefix_visits_matching
      [([7], [([97], [0]), ([97, 98], [1]), ([97, 98, 99], [2]),
        ([97, 98, 100], [3]), ([98], [4])])]
      [7] [97, 98]
      [([97], [0]), ([97, 98], [1]), ([97, 98, 99], [2]),
        ([97, 98, 100], [3]), ([98], [4])]
      (by decide) (by decide) (by decide) (by decide)
      (fun s k _ => .ok (s ++ [k])) []).trans rfl

/-- C7 as frozen is false at an empty listed bucket name: Open skips names
of zero length (src/bolt.go 28), so a listed empty name does not exist in
the successfully opened store. -/
theorem open_empty_name_counterexample :
    (Open [] "p" [[]]).1 = .ok [] ∧ txBucket ([] : DB) [] = none := by
  constructor <;> rfl

/-- C7 (amended: empty names are skipped): Open with an empty path fails
with InvalidArgument leaving the backing file system untouched; when Open
succeeds, every non-empty bucket name listed exists in the store. -/
theorem open_ensures_buckets (fs : FS) (path : String)
    (buckets : List Bytes) :
    (Open fs "" buckets = (.error .invalidArgument, fs)) ∧
    (∀ d, (Open fs path buckets).1 = .ok d →
      ∀ bk ∈ buckets, bk ≠ [] → (txBucket d bk).isSome = true) := by
  constructor
  · simp [Open]
  · intro d hd bk hmem hne
    by_cases hpath : path = ""
    · subst hpath; simp [Open] at hd
    · simp only [Open, if_neg hpath] at hd
      have : d = initBuckets buckets ((fsGet fs path).getD []) :=
        (Except.ok.inj hd).symm
      rw [this]
      exact initBuckets_creates buckets _ bk hmem hne

theorem open_ensures_buckets_witness :
    (txBucket [([1], ([] : Bucket)), ([2], [])] [1]).isSome = true :=
  (open_ensures_buckets [] "q" [[1], [2]]).2 [([1], []), ([2], [])] rfl
    [1] (by decide) (by decide)

/-- C8: every wrapper operation that signals errors (Put, GetWithValue,
PutWithValue, PutWithValuePrefix, EachKV, EachKVPrefix, GetWithBucket,
PutWithBucket, GetWithDB, PutWithDB, EachBucket, CountKV, CountKVPrefix,
Open) rejects invalid arguments (nil database, empty bucket, key, value or
path, nil callback) with InvalidArgument, uniformly in the callback and
with the state returned unchanged: no transaction is consulted and no
callback runs. -/
theorem validation_fail_fast :
    (∀ bucket key value,
      Put none bucket key value = (.error .invalidArgument, none)) ∧
    (∀ (d : DB) key value,
      Put (some d) [] key value = (.error .invalidArgument, some d)) ∧
    (∀ (d : DB) bucket value,
      Put (some d) bucket [] value = (.error .invalidArgument, some d)) ∧
    (∀ (d : DB) bucket key,
      Put (some d) bucket key [] = (.error .invalidArgument, some d)) ∧
    (∀ bucket key fn,
      GetWithValue none bucket key fn = .error .invalidArgument) ∧
    (∀ (d : DB) bucket key,
      GetWithValue (some d) bucket key none = .error .invalidArgument) ∧
    (∀ (d : DB) key f,
      GetWithValue (some d) [] key (some f) = .error .invalidArgument) ∧
    (∀ (d : DB) bucket f,
      GetWithValue (some d) bucket [] (some f) = .error .invalidArgument) ∧
    (∀ bucket key fn,
      PutWithValue none bucket key fn = (.error .invalidArgument, none)) ∧
    (∀ (d : DB) bucket key,
      PutWithValue (some d) bucket key none = (.error .invalidArgument, some d)) ∧
    (∀ (d : DB) key f,
      PutWithValue (some d) [] key (some f) = (.error .invalidArgument, some d)) ∧
    (∀ (d : DB) bucket f,
      PutWithValue (some d) bucket [] (some f) = (.error .invalidArgument, some d)) ∧
    (∀ bucket pfx fn,
      PutWithValuePrefix none bucket pfx fn = (.error .invalidArgument, none)) ∧
    (∀ (d : DB) bucket pfx,
      PutWithValuePrefix (some d) bucket pfx none =
        (.error .invalidArgument, some d)) ∧
    (∀ (d : DB) pfx f,
      PutWithValuePrefix (some d) [] pfx (some f) =
        (.error .invalidArgument, some d)) ∧
    (∀ (σ : Type) (s : σ) bucket fn,
      EachKV none bucket fn s = .error .invalidArgument) ∧
    (∀ (σ : Type) (s : σ) (d : DB) bucket,
      EachKV (some d) bucket
        (none : Option (σ → Bytes → Bytes → Except Err σ)) s =
        .error .invalidArgument) ∧
    (∀ (σ : Type) (s : σ) (d : DB) f,
      EachKV (some d) [] (some f) s = .error .invalidArgument) ∧
    (∀ (σ : Type) (s : σ) bucket pfx fn,
      EachKVPrefix none bucket pfx fn s = .error .invalidArgument) ∧
    (∀ (σ : Type) (s : σ) (d : DB) bucket pfx,
      EachKVPrefix (some d) bucket pfx
        (none : Option (σ → Bytes → Bytes → Except Err σ)) s =
        .error .invalidArgument) ∧
    (∀ (σ : Type) (s : σ) (d : DB) pfx f,
      EachKVPrefix (some d) [] pfx (some f) s = .error .invalidArgument) ∧
    (∀ bucket fn, GetWithBucket none bucket fn = .error .invalidArgument) ∧
    (∀ (d : DB) bucket,
      GetWithBucket (some d) bucket none = .error .invalidArgument) ∧
    (∀ (d : DB) f, GetWithBucket (some d) [] (some f) = .error .invalidArgument) ∧
    (∀ bucket fn,
      PutWithBucket none bucket fn = (.error .invalidArgument, none)) ∧
    (∀ (d : DB) bucket,
      PutWithBucket (some d) bucket none = (.error .invalidArgument, some d)) ∧
    (∀ (d : DB) f,
      PutWithBucket (some d) [] (some f) = (.error .invalidArgument, some d)) ∧
    (∀ fn, GetWithDB none fn = .error .invalidArgument) ∧
    (∀ d : DB, GetWithDB (some d) none = .error .invalidArgument) ∧
    (∀ fn, PutWithDB none fn = (.error .invalidArgument, none)) ∧
    (∀ d : DB, PutWithDB (some d) none = (.error .invalidArgument, some d)) ∧
    (∀ bucket fn, EachBucket none bucket fn = .error .invalidArgument) ∧
    (∀ (d : DB) bucket,
      EachBucket (some d) bucket none = .error .invalidArgument) ∧
    (∀ (d : DB) f, EachBucket (some d) [] (some f) = .error .invalidArgument) ∧
    (∀ bucket, CountKV none bucket = .error .invalidArgument) ∧
    (∀ d : DB, CountKV (some d) [] = .error .invalidArgument) ∧
    (∀ bucket pfx, CountKVPrefix none bucket pfx = .error .invalidArgument) ∧
    (∀ (d : DB) pfx, CountKVPrefix (some d) [] pfx = .error .invalidArgument) ∧
    (∀ fs buckets, Open fs "" buckets = (.error .invalidArgument, fs)) := by
  refine ⟨fun _ _ _ => rfl, fun d k v => by simp [Put],
    fun d b v => by simp [Put], fun d b k => by simp [Put],
    fun _ _ _ => rfl, fun d b k => rfl,
    fun d k f => by simp [GetWithValue], fun d b f => by simp [GetWithValue],
    fun _ _ _ => rfl, fun d b k => rfl,
    fun d k f => by simp [PutWithValue], fun d b f => by simp [PutWithValue],
    fun _ _ _ => rfl, fun d b p => rfl,
    fun d p f => by simp [PutWithValuePrefix],
    fun _ _ _ _ => rfl, fun _ _ d b => rfl,
    fun _ s d f => by simp [EachKV],
    fun _ _ _ _ _ => rfl, fun _ _ d b p => rfl,
    fun _ s d p f => by simp [EachKVPrefix],
    fun _ _ => rfl, fun d b => rfl,
    fun d f => by simp [GetWithBucket],
    fun _ _ => rfl, fun d b => rfl,
    fun d f => by simp [PutWithBucket],
    fun _ => rfl, fun d => rfl,
    fun _ => rfl, fun d => rfl,
    fun _ _ => rfl, fun d b => rfl,
    fun d f => by simp [EachBucket],
    fun _ => rfl, fun d => by simp [CountKV],
    fun _ _ => rfl, fun d p => by simp [CountKVPrefix],
    fun fs buckets => by simp [Open]⟩

/-- C9: CountKV returns exactly the number of distinct keys of the bucket,
and CountKVPrefix returns exactly the number of keys carrying the prefix;
empty buckets and unmatched prefixes count zero, not an error. -/
theorem count_correct (d : DB) (bucket pfx : Bytes) (b : Bucket)
    (hb : txBucket d bucket = some b) (hs : bucketSorted b)
    (hbn : bucket ≠ []) (hp : pfx ≠ []) :
    CountKV (some d) bucket = .ok (b.map Prod.fst).length ∧
    (b.map Prod.fst).Nodup ∧
    CountKVPrefix (some d) bucket pfx = .ok (matching b pfx).length := by
  have h1 := length_beq_zero hbn
  have h2 := length_beq_zero hp
  refine ⟨?_, ?_, ?_⟩
  · simp [CountKV, h1, hb, bucketKeyN]
  · rw [List.Nodup, List.pairwise_map]
    exact hs.imp fun h => ltBytes_ne h
  · obtain ⟨s1, s2, s3⟩ := seek_sorted_facts b hs
    have heq := countPrefixLoop_eq_of_ge pfx (seek b pfx) s1 s2
    simp [CountKVPrefix, h1, h2, hb, heq, ← s3]

theorem count_correct_witness :
    CountKV (some [([7], [([97], [0]), ([97, 98], [1]), ([97, 98, 99], [2]),
        ([97, 98, 100], [3]), ([98], [4])])]) [7] = .ok 5 ∧
    CountKVPrefix (some [([7], [([97], [0]), ([97, 98], [1]),
        ([97, 98, 99], [2]), ([97, 98, 100], [3]), ([98], [4])])]) [7]
      [97, 98] = .ok 3 :=
  ⟨(count_correct [([7], [([97], [0]), ([97, 98], [1]), ([97, 98, 99], [2]),
        ([97, 98, 100], [3]), ([98], [4])])] [7] [97, 98]
      [([97], [0]), ([97, 98], [1]), ([97, 98, 99], [2]),
        ([97, 98, 100], [3]), ([98], [4])]
      (by decide) (by decide) (by decide) (by decide)).1,
   (count_correct [([7], [([97], [0]), ([97, 98], [1]), ([97, 98, 99], [2]),
        ([97, 98, 100], [3]), ([98], [4])])] [7] [97, 98]
      [([97], [0]), ([97, 98], [1]), ([97, 98, 99], [2]),
        ([97, 98, 100], [3]), ([98], [4])]
      (by decide) (by decide) (by decide) (by decide)).2.2⟩

/-- C10: each prefix-taking operation rejects an empty (nil) prefix with
InvalidArgument, for every database, bucket and callback, so no prefix
scan with an empty prefix ever traverses a bucket. -/
theorem empty_prefix_rejected :
    (∀ (σ : Type) (s : σ) db bucket fn,
      EachKVPrefix db bucket [] fn s = .error .invalidArgument) ∧
    (∀ db bucket fn,
      PutWithValuePrefix db bucket [] fn = (.error .invalidArgument, db)) ∧
    (∀ db bucket, CountKVPrefix db bucket [] = .error .invalidArgument) := by
  refine ⟨?_, ?_, ?_⟩
  · intro σ s db bucket fn
    match db, fn with
    | none, _ => rfl
    | some d, none => rfl
    | some d, some f => simp [EachKVPrefix]
  · intro db bucket fn
    match db, fn with
    | none, _ => rfl
    | some d, none => rfl
    | some d, some f => simp [PutWithValuePrefix]
  · intro db bucket
    match db with
    | none => rfl
    | some d => simp [CountKVPrefix]

end Bolt
